import Mathlib

/-!
Verification of the image-get worker pipeline (`image_get/worker/consumer.py`).

The development shallowly embeds the Python source:
* `kafka_connect` — broker-connection retry loop (source lines 14-21),
  driven by a finite observation trace of connection-attempt outcomes;
* `poll_consumer` — time-boxed batch accumulation (lines 29-51), driven
  by a trace of `consumer.consume(block=False)` results paired with the
  `timer()` readings the source takes in that iteration;
* `process_image` — per-URL fetch/read/decode/resize/persist pipeline
  (lines 108-125), recorded as an action trace;
* `consume_cycle` — one iteration of the orchestrator's `while True`
  loop in `consume` (lines 71-90);
* `thumbnail_image` — thumbnail production (lines 93-97), with PIL's
  `Image.thumbnail` geometry modelled from the spec.

Time values are rationals; Python ints are `ℤ`; fallible results are
`Option`.
-/

namespace ImageGet

/-! ## Kafka messages and parsing -/

/-- A queue message: an opaque UTF-8 payload (already decoded here) plus
its broker-held offset.  Mirrors the message objects handed out by the
consumer in the source. -/
structure KafkaMessage where
  value : String
deriving DecidableEq

/-- Source `_parse_message` (lines 24-26): decode the payload to text. -/
def parse_message (m : KafkaMessage) : String := m.value

/-! ## `poll_consumer` (source lines 29-51)

Each iteration of the source's `while` loop performs one
`consumer.consume(block=False)` call and up to two `timer()` readings.
A `PollEvent` records what the environment returned for that iteration:
the consume result, the `timer()` value taken right after a message is
accepted (`tMsg`, meaningful only when `msg` is present), and the
`timer()` value taken when `elapsed_time` is recomputed at the end of
the loop body (`tEnd`). -/
structure PollEvent where
  msg : Option KafkaMessage
  tMsg : ℚ
  tEnd : ℚ

/-- The live local state of `poll_consumer`'s loop: `batch`, `msg_count`,
`elapsed_time`, `last_msg_time`, plus an instrumentation counter of how
many `consumer.consume` calls have been made. -/
structure PollState where
  batch : List String
  msgCount : ℤ
  elapsed : ℚ
  lastMsgTime : ℚ
  consumeCalls : ℕ
deriving DecidableEq

/-- State right before the loop: `batch = []`, `elapsed_time = 0`,
`msg_count = 0`, `last_msg_time = timer()` (= `t0`). -/
def initPollState (t0 : ℚ) : PollState :=
  { batch := [], msgCount := 0, elapsed := 0, lastMsgTime := t0, consumeCalls := 0 }

/-- Source line 39: `max_wait_seconds = 3`. -/
def max_wait_seconds : ℚ := 3

/-- One iteration of `poll_consumer`'s loop body (lines 44-50): consume;
if a message arrived, parse and append it, reset `last_msg_time` to now
and bump `msg_count`; in either case recompute
`elapsed_time = timer() - last_msg_time`. -/
def pollStep (s : PollState) (e : PollEvent) : PollState :=
  match e.msg with
  | some m =>
      { batch := s.batch ++ [parse_message m]
        msgCount := s.msgCount + 1
        elapsed := e.tEnd - e.tMsg
        lastMsgTime := e.tMsg
        consumeCalls := s.consumeCalls + 1 }
  | none =>
      { batch := s.batch
        msgCount := s.msgCount
        elapsed := e.tEnd - s.lastMsgTime
        lastMsgTime := s.lastMsgTime
        consumeCalls := s.consumeCalls + 1 }

/-- The `while msg_count < batch_size and elapsed_time < max_wait_seconds`
loop (line 43), run against a finite observation trace.  `some s` is a
normal loop exit in state `s`; `none` means the trace was exhausted while
the loop was still running (no verdict). -/
def pollRun (b : ℤ) : List PollEvent → PollState → Option PollState
  | [], s =>
      if s.msgCount < b ∧ s.elapsed < max_wait_seconds then none else some s
  | e :: rest, s =>
      if s.msgCount < b ∧ s.elapsed < max_wait_seconds then
        pollRun b rest (pollStep s e)
      else some s

/-- Source `poll_consumer(consumer, batch_size)`: run the loop from the
initial state and return the accumulated batch. -/
def poll_consumer (evs : List PollEvent) (b : ℤ) (t0 : ℚ) : Option (List String) :=
  (pollRun b evs (initPollState t0)).map fun s => s.batch

/-! ## `process_image` (source lines 108-125)

Each `await` in the body either succeeds or raises; on a raise the
remaining steps never run and the coroutine (job) fails.  `FetchEnv`
fixes the environment's behaviour for one URL, and the embedding returns
the list of actions that actually executed together with the job's
success flag. -/

/-- The observable actions of `process_image`, in source order:
`session.get(url)`, `img_resp.read()`, `run_in_executor(Image.open)`,
`run_in_executor(thumbnail_image)`, `persister(thumb)`. -/
inductive PStep
  | httpGet (url : String)
  | readBody
  | poolDecode
  | poolResize
  | persistCall
deriving DecidableEq

/-- Environment behaviour for one URL: whether each awaited step
succeeds, and the decoded image's dimensions when decoding succeeds. -/
structure FetchEnv where
  getOk : Bool
  readOk : Bool
  decodeOk : Bool
  imgDims : ℕ × ℕ
  resizeOk : Bool
  persistOk : Bool
deriving DecidableEq

/-- The full step sequence of a `process_image` run in which nothing
fails. -/
def fullSteps (url : String) : List PStep :=
  [.httpGet url, .readBody, .poolDecode, .poolResize, .persistCall]

/-- Source `process_image(persister, session, url)`: the steps run in
order; the first failing step aborts the rest; the pair returned is
(actions actually executed, job succeeded). -/
def process_image (env : FetchEnv) (url : String) : List PStep × Bool :=
  if env.getOk then
    if env.readOk then
      if env.decodeOk then
        if env.resizeOk then
          (fullSteps url, env.persistOk)
        else ([.httpGet url, .readBody, .poolDecode, .poolResize], false)
      else ([.httpGet url, .readBody, .poolDecode], false)
    else ([.httpGet url, .readBody], false)
  else ([.httpGet url], false)

/-! ## One orchestrator cycle (`consume`, source lines 71-90) -/

/-- Holds exactly when the `process_image` job for `url` runs to
completion without raising. -/
def taskSucceeds (env : String → FetchEnv) (url : String) : Bool :=
  (process_image (env url) url).2

/-- Observable outcome of one iteration of `consume`'s `while True`
loop: how many `process_image` tasks were launched, which messages were
fully processed and persisted, how many `commit_offsets` calls were
made, whether the `time.sleep(1)` branch ran, and whether an exception
propagated out of the iteration (failing the `asyncio.gather` join). -/
structure CycleResult where
  tasksLaunched : ℕ
  persisted : List String
  commits : ℕ
  slept : Bool
  failed : Bool
deriving DecidableEq

/-- One iteration of `consume`'s loop, given the polled batch `messages`
and the per-URL environment `env`: schedule one `process_image` task per
message; if there are tasks, `gather` them — the join succeeds iff every
task succeeded — and call `commit_offsets()` only on join success;
if there are no tasks, `time.sleep(1)`.  The tasks all run regardless of
each other's outcome (`gather` does not cancel siblings), so `persisted`
collects every message whose own task completed. -/
def consume_cycle (messages : List String) (env : String → FetchEnv) : CycleResult :=
  if messages.isEmpty then
    { tasksLaunched := 0, persisted := [], commits := 0, slept := true, failed := false }
  else
    let ok := messages.all (taskSucceeds env)
    { tasksLaunched := messages.length
      persisted := messages.filter (taskSucceeds env)
      commits := if ok then 1 else 0
      slept := false
      failed := !ok }

/-! ## `kafka_connect` (source lines 14-21)

The environment is a finite observation trace of connection-attempt
outcomes: `none` for a `NoBrokersAvailableError`, `some c` for a
successful `KafkaClient` construction.  The embedding returns the list
of `time.sleep` durations performed and the client, if any attempt in
the trace succeeded (`none` = the function is still retrying when the
observation window ends). -/

/-- An established broker connection handle. -/
structure KafkaClient where
  id : ℕ
deriving DecidableEq

/-- Source `kafka_connect()`: try to connect; on `NoBrokersAvailableError`
log, `time.sleep(3)`, and recurse; otherwise return the client. -/
def kafka_connect : List (Option KafkaClient) → List ℚ × Option KafkaClient
  | [] => ([], none)
  | none :: rest =>
      let r := kafka_connect rest
      (3 :: r.1, r.2)
  | some c :: _ => ([], some c)

/-! ## `thumbnail_image` (source lines 93-97) -/

/-- PIL resampling filters; the source passes `Image.NEAREST`. -/
inductive Resample
  | nearest
  | bilinear
  | bicubic
deriving DecidableEq

/-- The encoded in-memory artifact written by `img.save(output,
format="JPEG")`: its container format, pixel dimensions, and the
resampling filter that produced it. -/
structure EncodedImage where
  format : String
  width : ℕ
  height : ℕ
  resample : Resample
deriving DecidableEq

/-- Modelled from the spec: PIL's `Image.thumbnail` geometry — an
external library call, not code of this repository.  Per the spec it
"resizes to fit within a target resolution bounding box", is
"aspect-preserving (thumbnail semantics: longest side capped, never
upscaled)": when the image already fits the box it is left unchanged;
otherwise both dimensions are scaled by the single factor
`min (tw/w) (th/h)`, rounding down, with a floor of one pixel. -/
def pilThumbnailDims (w h tw th : ℕ) : ℕ × ℕ :=
  if w ≤ tw ∧ h ≤ th then (w, h)
  else
    let f : ℚ := min ((tw : ℚ) / (w : ℚ)) ((th : ℚ) / (h : ℚ))
    ((max 1 ⌊f * (w : ℚ)⌋).toNat, (max 1 ⌊f * (h : ℚ)⌋).toNat)

/-- Source `thumbnail_image(img)`: `img.thumbnail(size=TARGET_RESOLUTION,
resample=Image.NEAREST)` followed by `img.save(output, format="JPEG")`.
`targetRes` stands for `settings.TARGET_RESOLUTION`; `img` is the
decoded image's (width, height). -/
def thumbnail_image (targetRes : ℕ × ℕ) (img : ℕ × ℕ) : EncodedImage :=
  let d := pilThumbnailDims img.1 img.2 targetRes.1 targetRes.2
  { format := "JPEG", width := d.1, height := d.2, resample := .nearest }

/-! ## Lemmas about the `poll_consumer` loop -/

/-- When the loop guard is false on entry, the loop returns the current
state untouched, whatever the consumer would have produced. -/
lemma pollRun_stop (b : ℤ) (evs : List PollEvent) (s : PollState)
    (h : ¬(s.msgCount < b ∧ s.elapsed < max_wait_seconds)) :
    pollRun b evs s = some s := by
  cases evs <;> simp [pollRun, h]

/-- On a normal loop exit, the guard is false in the final state. -/
lemma pollRun_exit (b : ℤ) :
    ∀ (evs : List PollEvent) (s s' : PollState),
      pollRun b evs s = some s' →
      ¬(s'.msgCount < b ∧ s'.elapsed < max_wait_seconds) := by
  intro evs
  induction evs with
  | nil =>
      intro s s' h
      by_cases hc : s.msgCount < b ∧ s.elapsed < max_wait_seconds
      · simp [pollRun, hc] at h
      · simp [pollRun, hc] at h
        exact h ▸ hc
  | cons e rest ih =>
      intro s s' h
      by_cases hc : s.msgCount < b ∧ s.elapsed < max_wait_seconds
      · simp only [pollRun, if_pos hc] at h
        exact ih _ _ h
      · simp only [pollRun, if_neg hc, Option.some.injEq] at h
        exact h ▸ hc

/-- Any property preserved by the loop body while the guard holds is an
invariant of the loop. -/
lemma pollRun_inv (b : ℤ) (P : PollState → Prop)
    (hstep : ∀ s e, s.msgCount < b → s.elapsed < max_wait_seconds →
      P s → P (pollStep s e)) :
    ∀ (evs : List PollEvent) (s s' : PollState),
      pollRun b evs s = some s' → P s → P s' := by
  intro evs
  induction evs with
  | nil =>
      intro s s' h hP
      by_cases hc : s.msgCount < b ∧ s.elapsed < max_wait_seconds
      · simp [pollRun, hc] at h
      · simp [pollRun, hc] at h
        exact h ▸ hP
  | cons e rest ih =>
      intro s s' h hP
      by_cases hc : s.msgCount < b ∧ s.elapsed < max_wait_seconds
      · simp only [pollRun, if_pos hc] at h
        exact ih _ _ h (hstep s e hc.1 hc.2 hP)
      · simp only [pollRun, if_neg hc, Option.some.injEq] at h
        exact h ▸ hP

/-- Along the run, `msg_count` both counts the accumulated batch and
stays at most `batch_size` (when the latter is non-negative). -/
lemma pollRun_count (b : ℤ) (hb : 0 ≤ b) (evs : List PollEvent)
    (t0 : ℚ) (s' : PollState)
    (h : pollRun b evs (initPollState t0) = some s') :
    s'.msgCount = s'.batch.length ∧ s'.msgCount ≤ b := by
  refine pollRun_inv b
    (fun s => s.msgCount = s.batch.length ∧ s.msgCount ≤ b) ?_ evs _ _ h ?_
  · intro s e hlt _ hP
    cases hmsg : e.msg with
    | some m =>
        constructor
        · simp [pollStep, hmsg, hP.1]
        · simpa [pollStep, hmsg] using hlt
    | none =>
        constructor
        · simp [pollStep, hmsg, hP.1]
        · simpa [pollStep, hmsg] using hP.2
  · exact ⟨by simp [initPollState], by simpa [initPollState] using hb⟩

/-! ## Claims about `poll_consumer` -/

/-- C3: `poll_consumer` terminates and returns the accumulated batch
exactly when the accepted-message count equals `batch_size` or the
observed idle time since the last accepted message (or since poll start
when the batch is empty) reaches `max_wait_seconds = 3`; on every
accepted message the idle timer is reset to now, and an empty receive
leaves it untouched. -/
theorem poll_consumer_exit_iff (evs : List PollEvent) (b : ℤ) (t0 : ℚ)
    (hb : 0 ≤ b) :
    (∀ s, pollRun b evs (initPollState t0) = some s →
        poll_consumer evs b t0 = some s.batch ∧
        (s.msgCount = b ∨ max_wait_seconds ≤ s.elapsed))
    ∧ (∀ s : PollState, (s.msgCount = b ∨ max_wait_seconds ≤ s.elapsed) →
        pollRun b evs s = some s)
    ∧ (∀ (s : PollState) (e : PollEvent) (m : KafkaMessage), e.msg = some m →
        (pollStep s e).lastMsgTime = e.tMsg ∧
        (pollStep s e).elapsed = e.tEnd - e.tMsg ∧
        (pollStep s e).batch = s.batch ++ [parse_message m])
    ∧ (∀ (s : PollState) (e : PollEvent), e.msg = none →
        (pollStep s e).lastMsgTime = s.lastMsgTime ∧
        (pollStep s e).elapsed = e.tEnd - s.lastMsgTime ∧
        (pollStep s e).batch = s.batch) := by
  refine ⟨?_, ?_, ?_, ?_⟩
  · intro s h
    refine ⟨by simp [poll_consumer, h], ?_⟩
    have hexit := pollRun_exit b evs _ _ h
    have hcount := pollRun_count b hb evs t0 s h
    rcases not_and_or.mp hexit with h1 | h2
    · exact Or.inl (le_antisymm hcount.2 (not_lt.mp h1))
    · exact Or.inr (not_lt.mp h2)
  · intro s hs
    apply pollRun_stop
    rcases hs with h1 | h2
    · exact fun hc => absurd hc.1 (by simp [h1])
    · exact fun hc => absurd hc.2 (not_lt.mpr h2)
  · intro s e m hm
    simp [pollStep, hm, parse_message]
  · intro s e hm
    simp [pollStep, hm]

/-- A concrete consumer trace: two messages accepted back to back. -/
def pollTraceTwo : List PollEvent :=
  [{ msg := some ⟨"u1"⟩, tMsg := 1, tEnd := 1 },
   { msg := some ⟨"u2"⟩, tMsg := 2, tEnd := 2 }]

/-- The final loop state reached on `pollTraceTwo` with `batch_size = 2`. -/
def pollFinalTwo : PollState :=
  { batch := ["u1", "u2"], msgCount := 2, elapsed := 0,
    lastMsgTime := 2, consumeCalls := 2 }

theorem poll_consumer_exit_iff_witness :
    poll_consumer pollTraceTwo 2 0 = some ["u1", "u2"] ∧
    (pollFinalTwo.msgCount = 2 ∨ max_wait_seconds ≤ pollFinalTwo.elapsed) := by
  have hrun : pollRun 2 pollTraceTwo (initPollState 0) = some pollFinalTwo := by
    norm_num [pollRun, pollTraceTwo, pollStep, initPollState, pollFinalTwo,
      max_wait_seconds, parse_message]
  have h := (poll_consumer_exit_iff pollTraceTwo 2 0 (by norm_num)).1
    pollFinalTwo hrun
  exact ⟨h.1, h.2⟩

/-- C4: for every non-negative configured `batch_size` and every arrival
pattern, a batch returned by `poll_consumer` has length between 0 and
`batch_size` inclusive. -/
theorem poll_consumer_batch_bounded (evs : List PollEvent) (b : ℤ) (t0 : ℚ)
    (batch : List String) (hb : 0 ≤ b)
    (h : poll_consumer evs b t0 = some batch) :
    0 ≤ (batch.length : ℤ) ∧ (batch.length : ℤ) ≤ b := by
  cases hrun : pollRun b evs (initPollState t0) with
  | none => simp [poll_consumer, hrun] at h
  | some s =>
      have hc := pollRun_count b hb evs t0 s hrun
      have hbatch : batch = s.batch := by
        have := h
        rw [poll_consumer, hrun] at this
        simpa using this.symm
      refine ⟨Int.ofNat_nonneg _, ?_⟩
      rw [hbatch, ← hc.1]
      exact hc.2

/-- A consumer trace offering three messages in quick succession. -/
def pollTraceThree : List PollEvent :=
  [{ msg := some ⟨"a"⟩, tMsg := 1, tEnd := 1 },
   { msg := some ⟨"b"⟩, tMsg := 2, tEnd := 2 },
   { msg := some ⟨"c"⟩, tMsg := 3, tEnd := 3 }]

theorem poll_consumer_batch_bounded_witness :
    poll_consumer pollTraceThree 2 0 = some ["a", "b"] ∧
    0 ≤ ((["a", "b"] : List String).length : ℤ) ∧
    ((["a", "b"] : List String).length : ℤ) ≤ 2 := by
  have hp : poll_consumer pollTraceThree 2 0 = some ["a", "b"] := by
    norm_num [poll_consumer, pollRun, pollTraceThree, pollStep, initPollState,
      max_wait_seconds, parse_message]
  exact ⟨hp, poll_consumer_batch_bounded pollTraceThree 2 0 _ (by norm_num) hp⟩

/-- C9: with `batch_size ≤ 0` the loop guard fails immediately, so
`poll_consumer` returns the empty batch without a single
`consumer.consume` call and without waiting for the idle timeout. -/
theorem poll_consumer_nonpositive_batch (evs : List PollEvent) (b : ℤ)
    (t0 : ℚ) (hb : b ≤ 0) :
    pollRun b evs (initPollState t0) = some (initPollState t0) ∧
    poll_consumer evs b t0 = some [] ∧
    (initPollState t0).consumeCalls = 0 ∧
    (initPollState t0).elapsed = 0 := by
  have hstop : pollRun b evs (initPollState t0) = some (initPollState t0) := by
    apply pollRun_stop
    intro hc
    have h0 : (0 : ℤ) < b := by simpa [initPollState] using hc.1
    omega
  refine ⟨hstop, ?_, rfl, rfl⟩
  simp only [poll_consumer, hstop, Option.map_some']
  rfl

theorem poll_consumer_nonpositive_batch_witness :
    poll_consumer pollTraceThree 0 0 = some [] ∧
    (initPollState 0).consumeCalls = 0 := by
  have h := poll_consumer_nonpositive_batch pollTraceThree 0 0 (by norm_num)
  exact ⟨h.2.1, h.2.2.1⟩

/-! ## Lemmas about `process_image` -/

/-- The job succeeds exactly when every awaited step succeeds. -/
lemma process_image_ok_iff (env : FetchEnv) (url : String) :
    (process_image env url).2 = true ↔
      env.getOk = true ∧ env.readOk = true ∧ env.decodeOk = true ∧
        env.resizeOk = true ∧ env.persistOk = true := by
  rcases env with ⟨g, r, d, dims, rz, p⟩
  cases g <;> cases r <;> cases d <;> cases rz <;> cases p <;>
    simp [process_image, fullSteps]

/-- The executed actions always form a prefix of the full step list. -/
lemma process_image_trace_take (env : FetchEnv) (url : String) :
    ∃ n, (process_image env url).1 = (fullSteps url).take n := by
  rcases env with ⟨g, r, d, dims, rz, p⟩
  cases g <;> cases r <;> cases d <;> cases rz <;> cases p <;>
    first
      | exact ⟨1, rfl⟩
      | exact ⟨2, rfl⟩
      | exact ⟨3, rfl⟩
      | exact ⟨4, rfl⟩
      | exact ⟨5, rfl⟩

/-- Once fetch, read, decode and resize all succeed, every step runs —
including the persister invocation. -/
lemma process_image_full_trace (env : FetchEnv) (url : String)
    (hg : env.getOk = true) (hr : env.readOk = true)
    (hd : env.decodeOk = true) (hz : env.resizeOk = true) :
    (process_image env url).1 = fullSteps url := by
  rcases env with ⟨g, r, d, dims, rz, p⟩
  cases g <;> cases r <;> cases d <;> cases rz <;> cases p <;>
    simp_all [process_image, fullSteps]

/-- The persister is invoked exactly when all four earlier steps
succeeded. -/
lemma process_image_persist_mem (env : FetchEnv) (url : String) :
    PStep.persistCall ∈ (process_image env url).1 ↔
      env.getOk = true ∧ env.readOk = true ∧ env.decodeOk = true ∧
        env.resizeOk = true := by
  rcases env with ⟨g, r, d, dims, rz, p⟩
  cases g <;> cases r <;> cases d <;> cases rz <;> cases p <;>
    simp [process_image, fullSteps]

/-- The persister is never invoked twice in one attempt. -/
lemma process_image_persist_once (env : FetchEnv) (url : String) :
    (process_image env url).1.count PStep.persistCall ≤ 1 := by
  rcases env with ⟨g, r, d, dims, rz, p⟩
  cases g <;> cases r <;> cases d <;> cases rz <;> cases p <;>
    simp [process_image, fullSteps]

/-! ## Claims about `process_image` -/

/-- C5: for every URL, `process_image` performs exactly the steps
HTTP GET, full body read, pool-offloaded decode, pool-offloaded
resize-and-encode, then the persister call, in that order; the executed
actions are always a prefix of that sequence (no retry, no extra step);
the job succeeds iff every step succeeds, and a failure at any step
aborts the remaining steps and fails the job. -/
theorem process_image_step_contract (env : FetchEnv) (url : String) :
    (∃ n, (process_image env url).1 = (fullSteps url).take n)
    ∧ ((process_image env url).2 = true ↔
        env.getOk = true ∧ env.readOk = true ∧ env.decodeOk = true ∧
          env.resizeOk = true ∧ env.persistOk = true)
    ∧ ((process_image env url).2 = true →
        (process_image env url).1 = fullSteps url)
    ∧ (env.getOk = true → env.readOk = true → env.decodeOk = true →
        env.resizeOk = true → (process_image env url).1 = fullSteps url) := by
  refine ⟨process_image_trace_take env url, process_image_ok_iff env url,
    ?_, process_image_full_trace env url⟩
  intro hok
  have h := (process_image_ok_iff env url).mp hok
  exact process_image_full_trace env url h.1 h.2.1 h.2.2.1 h.2.2.2.1

/-- An environment in which every step of every fetch succeeds. -/
def envAllOk : String → FetchEnv :=
  fun _ => ⟨true, true, true, (800, 600), true, true⟩

theorem process_image_step_contract_witness :
    (process_image (envAllOk "http://x/a.jpg") "http://x/a.jpg").1 =
      fullSteps "http://x/a.jpg" ∧
    (process_image (envAllOk "http://x/a.jpg") "http://x/a.jpg").2 = true := by
  have h := process_image_step_contract (envAllOk "http://x/a.jpg") "http://x/a.jpg"
  exact ⟨h.2.2.2 rfl rfl rfl rfl, (h.2.1).mpr ⟨rfl, rfl, rfl, rfl, rfl⟩⟩

/-- C10: within one `process_image` attempt the persister is invoked at
most once, and it is invoked exactly when fetch, body read, decode and
resize all succeeded — in which case the whole ordered step sequence ran
and the persist call is its final step.  If any earlier step fails the
persister is never called. -/
theorem process_image_persist_guard (env : FetchEnv) (url : String) :
    ((process_image env url).1.count PStep.persistCall ≤ 1)
    ∧ (PStep.persistCall ∈ (process_image env url).1 ↔
        env.getOk = true ∧ env.readOk = true ∧ env.decodeOk = true ∧
          env.resizeOk = true)
    ∧ (PStep.persistCall ∈ (process_image env url).1 →
        (process_image env url).1 = fullSteps url) := by
  refine ⟨process_image_persist_once env url, process_image_persist_mem env url, ?_⟩
  intro hmem
  have h := (process_image_persist_mem env url).mp hmem
  exact process_image_full_trace env url h.1 h.2.1 h.2.2.1 h.2.2.2

/-- An environment whose HTTP GET fails outright. -/
def envGetFails : FetchEnv := ⟨false, true, true, (800, 600), true, true⟩

theorem process_image_persist_guard_witness :
    ¬ PStep.persistCall ∈ (process_image envGetFails "http://x/b.jpg").1 ∧
    (process_image envGetFails "http://x/b.jpg").1.count PStep.persistCall ≤ 1 := by
  have h := process_image_persist_guard envGetFails "http://x/b.jpg"
  refine ⟨fun hmem => ?_, h.1⟩
  have hflags := h.2.1.mp hmem
  exact absurd hflags.1 (by simp [envGetFails])

/-! ## Lemmas about the orchestrator cycle -/

/-- On a non-empty batch, the commit counter of a cycle is 1 when every
task succeeded and 0 otherwise. -/
lemma consume_cycle_commits (messages : List String) (env : String → FetchEnv)
    (hne : messages.isEmpty = false) :
    (consume_cycle messages env).commits =
      if messages.all (taskSucceeds env) then 1 else 0 := by
  simp [consume_cycle, hne]

/-- On a non-empty batch, a cycle persists exactly the messages whose
own task ran to completion. -/
lemma consume_cycle_persisted (messages : List String) (env : String → FetchEnv)
    (hne : messages.isEmpty = false) :
    (consume_cycle messages env).persisted =
      messages.filter (taskSucceeds env) := by
  simp [consume_cycle, hne]

/-! ## Claims about the orchestrator cycle -/

/-- C1 (amended): in every orchestrator iteration whose polled batch is
non-empty, the `commit_offsets` call is made if and only if every
`process_image` task launched for that batch completed without failure,
at most one commit is ever made per iteration, and exactly one task is
launched per message.  (As stated, the claim fails on the empty batch,
where no task is launched — so every launched task vacuously succeeded —
yet no commit occurs; see the counterexample.) -/
theorem consume_commit_iff (messages : List String) (env : String → FetchEnv)
    (hne : messages ≠ []) :
    ((consume_cycle messages env).commits = 1 ↔
      ∀ m ∈ messages, taskSucceeds env m = true)
    ∧ (consume_cycle messages env).commits ≤ 1
    ∧ (consume_cycle messages env).tasksLaunched = messages.length := by
  have hne' : messages.isEmpty = false := by
    cases messages with
    | nil => exact absurd rfl hne
    | cons a l => rfl
  have hc := consume_cycle_commits messages env hne'
  refine ⟨?_, ?_, by simp [consume_cycle, hne']⟩
  · cases hall : messages.all (taskSucceeds env) with
    | true =>
        simp only [hall, if_true] at hc
        simpa [hc] using List.all_eq_true.mp hall
    | false =>
        simp only [hall, if_false] at hc
        simp only [hc]
        constructor
        · intro h; exact absurd h (by norm_num)
        · intro h
          exact absurd (List.all_eq_true.mpr h) (by simp [hall])
  · rw [hc]
    cases messages.all (taskSucceeds env) <;> simp

theorem consume_commit_iff_witness :
    (consume_cycle ["http://x/a.jpg"] envAllOk).commits = 1 ∧
    (consume_cycle ["http://x/a.jpg"] envAllOk).commits ≤ 1 ∧
    (consume_cycle ["http://x/a.jpg"] envAllOk).tasksLaunched = 1 := by
  have h := consume_commit_iff ["http://x/a.jpg"] envAllOk (by simp)
  refine ⟨h.1.mpr ?_, h.2.1, h.2.2⟩
  intro m hm
  have : m = "http://x/a.jpg" := by simpa using hm
  subst this
  rfl

/-- C1 counterexample: on an empty polled batch the code makes no commit
even though every task launched for that batch (there are none)
completed without failure — the claimed "if and only if" fails there. -/
theorem consume_commit_iff_empty_counterexample :
    ¬(((consume_cycle [] envAllOk).commits = 1) ↔
      ∀ m ∈ ([] : List String), taskSucceeds envAllOk m = true) := by
  intro h
  have h1 : (consume_cycle [] envAllOk).commits = 1 := h.mpr (by simp)
  simp [consume_cycle] at h1

/-- C2: when at least one task in the batch fails, no commit is made and
the failure propagates out of the iteration, yet the messages whose own
tasks completed were persisted (their persister call really ran) and are
not rolled back — so, the offset being uncommitted, the whole batch is
redelivered later and those messages are persisted again. -/
theorem consume_partial_failure (messages : List String)
    (env : String → FetchEnv)
    (hfail : ∃ m ∈ messages, taskSucceeds env m = false) :
    (consume_cycle messages env).commits = 0
    ∧ (consume_cycle messages env).failed = true
    ∧ (∀ m ∈ messages, taskSucceeds env m = true →
        m ∈ (consume_cycle messages env).persisted)
    ∧ (∀ m ∈ messages, taskSucceeds env m = true →
        PStep.persistCall ∈ (process_image (env m) m).1) := by
  obtain ⟨m0, hm0, hf0⟩ := hfail
  have hne' : messages.isEmpty = false := by
    cases messages with
    | nil => cases hm0
    | cons a l => rfl
  have hall : messages.all (taskSucceeds env) = false := by
    rcases hall' : messages.all (taskSucceeds env) with _ | _
    · rfl
    · exact absurd (List.all_eq_true.mp hall' m0 hm0) (by simp [hf0])
  refine ⟨?_, ?_, ?_, ?_⟩
  · rw [consume_cycle_commits messages env hne', hall]
    rfl
  · simp [consume_cycle, hne', hall]
  · intro m hm hs
    rw [consume_cycle_persisted messages env hne']
    exact List.mem_filter.mpr ⟨hm, hs⟩
  · intro m hm hs
    have h := (process_image_ok_iff (env m) m).mp hs
    exact (process_image_persist_mem (env m) m).mpr
      ⟨h.1, h.2.1, h.2.2.1, h.2.2.2.1⟩

/-- Scenario C's environment: the second URL's response body is not a
decodable image (an HTTP 404 page), every other URL processes cleanly. -/
def envScenarioC : String → FetchEnv := fun url =>
  if url = "u2" then ⟨true, true, false, (0, 0), true, true⟩
  else ⟨true, true, true, (800, 600), true, true⟩

theorem consume_partial_failure_witness :
    (consume_cycle ["u1", "u2", "u3"] envScenarioC).commits = 0 ∧
    (consume_cycle ["u1", "u2", "u3"] envScenarioC).failed = true ∧
    "u1" ∈ (consume_cycle ["u1", "u2", "u3"] envScenarioC).persisted ∧
    "u3" ∈ (consume_cycle ["u1", "u2", "u3"] envScenarioC).persisted := by
  have h := consume_partial_failure ["u1", "u2", "u3"] envScenarioC
    ⟨"u2", by simp, by simp [taskSucceeds, envScenarioC, process_image]⟩
  refine ⟨h.1, h.2.1, ?_, ?_⟩
  · exact h.2.2.1 "u1" (by simp)
      (by simp [taskSucceeds, envScenarioC, process_image, fullSteps])
  · exact h.2.2.1 "u3" (by simp)
      (by simp [taskSucceeds, envScenarioC, process_image, fullSteps])

/-- C8: an orchestrator iteration whose polled batch is empty launches
no task, makes no commit, runs the fixed `time.sleep(1)` branch, and
lets no exception escape — control returns to polling. -/
theorem consume_empty_cycle (env : String → FetchEnv) :
    consume_cycle [] env =
      { tasksLaunched := 0, persisted := [], commits := 0,
        slept := true, failed := false } := rfl

theorem consume_empty_cycle_witness :
    consume_cycle [] (fun _ => ⟨true, true, true, (1, 1), true, true⟩) =
      { tasksLaunched := 0, persisted := [], commits := 0,
        slept := true, failed := false } :=
  consume_empty_cycle _

/-! ## Claims about `kafka_connect` -/

/-- C7: `kafka_connect` never returns an error.  Whenever it returns a
client, that client is the outcome of the first successful connection
attempt, every earlier attempt failed with no-brokers-available, and the
function slept a fixed 3 time units between consecutive attempts — one
sleep per failed attempt, with no bound on their number.  If every
attempt in the observation window fails, it is still retrying (one
3-unit sleep per failure) and has returned nothing. -/
theorem kafka_connect_retries_forever (evs : List (Option KafkaClient)) :
    (∀ c, (kafka_connect evs).2 = some c →
        ∃ n, evs[n]? = some (some c) ∧ (∀ j < n, evs[j]? = some none) ∧
          (kafka_connect evs).1 = List.replicate n 3)
    ∧ ((∀ x ∈ evs, x = none) →
        kafka_connect evs = (List.replicate evs.length 3, none)) := by
  induction evs with
  | nil =>
      constructor
      · intro c h
        simp [kafka_connect] at h
      · intro _
        simp [kafka_connect]
  | cons e rest ih =>
      constructor
      · intro c h
        cases e with
        | some c' =>
            have hc : c' = c := by simpa [kafka_connect] using h
            subst hc
            exact ⟨0, by simp, by intro j hj; omega, by simp [kafka_connect]⟩
        | none =>
            have h' : (kafka_connect rest).2 = some c := by
              simpa [kafka_connect] using h
            obtain ⟨n, h1, h2, h3⟩ := ih.1 c h'
            refine ⟨n + 1, by simpa using h1, ?_,
              by simp [kafka_connect, h3, List.replicate_succ]⟩
            intro j hj
            cases j with
            | zero => simp
            | succ j' => simpa using h2 j' (by omega)
      · intro hall
        cases e with
        | some c' =>
            exact absurd (hall (some c') (List.mem_cons_self _ _)) (by simp)
        | none =>
            have h' := ih.2 (fun x hx => hall x (by simp [hx]))
            simp [kafka_connect, h', List.replicate]

/-- The broker handle eventually handed out in the witness run. -/
def kcClient : KafkaClient := ⟨7⟩

theorem kafka_connect_retries_forever_witness :
    kafka_connect [none, none, some kcClient] = ([3, 3], some kcClient) ∧
    (∃ n, ([none, none, some kcClient])[n]? = some (some kcClient) ∧
      (∀ j < n, ([none, none, some kcClient])[j]? = some none) ∧
      (kafka_connect [none, none, some kcClient]).1 = List.replicate n 3) := by
  have heval : kafka_connect [none, none, some kcClient] =
      ([3, 3], some kcClient) := rfl
  exact ⟨heval,
    (kafka_connect_retries_forever [none, none, some kcClient]).1 kcClient
      (by rw [heval])⟩

/-! ## Lemmas about the thumbnail geometry -/

/-- The geometry contract of the modelled `Image.thumbnail`: both output
dimensions stay within the bounding box and within the source image,
stay at least one pixel, and arise from the two source dimensions by one
common scale factor (up to the floor rounding and the one-pixel floor). -/
lemma pilThumbnailDims_spec (w h tw th : ℕ) (hw : 1 ≤ w) (hh : 1 ≤ h)
    (htw : 1 ≤ tw) (hth : 1 ≤ th) :
    (pilThumbnailDims w h tw th).1 ≤ tw ∧ (pilThumbnailDims w h tw th).2 ≤ th ∧
    (pilThumbnailDims w h tw th).1 ≤ w ∧ (pilThumbnailDims w h tw th).2 ≤ h ∧
    1 ≤ (pilThumbnailDims w h tw th).1 ∧ 1 ≤ (pilThumbnailDims w h tw th).2 ∧
    ∃ f : ℚ, 0 < f ∧ f ≤ 1 ∧
      (pilThumbnailDims w h tw th).1 = (max 1 ⌊f * (w : ℚ)⌋).toNat ∧
      (pilThumbnailDims w h tw th).2 = (max 1 ⌊f * (h : ℚ)⌋).toNat := by
  have hw0 : (0 : ℚ) < (w : ℚ) := by exact_mod_cast hw
  have hh0 : (0 : ℚ) < (h : ℚ) := by exact_mod_cast hh
  have htw0 : (0 : ℚ) < (tw : ℚ) := by exact_mod_cast htw
  have hth0 : (0 : ℚ) < (th : ℚ) := by exact_mod_cast hth
  by_cases hc : w ≤ tw ∧ h ≤ th
  · have hd : pilThumbnailDims w h tw th = (w, h) := by
      simp [pilThumbnailDims, hc]
    rw [hd]
    refine ⟨hc.1, hc.2, le_refl _, le_refl _, hw, hh, 1, one_pos, le_refl 1, ?_, ?_⟩
    · rw [one_mul, Int.floor_natCast]
      have h1 : (1 : ℤ) ≤ (w : ℤ) := by exact_mod_cast hw
      omega
    · rw [one_mul, Int.floor_natCast]
      have h1 : (1 : ℤ) ≤ (h : ℤ) := by exact_mod_cast hh
      omega
  · have hd : pilThumbnailDims w h tw th =
        ((max 1 ⌊min ((tw : ℚ) / (w : ℚ)) ((th : ℚ) / (h : ℚ)) * (w : ℚ)⌋).toNat,
         (max 1 ⌊min ((tw : ℚ) / (w : ℚ)) ((th : ℚ) / (h : ℚ)) * (h : ℚ)⌋).toNat) := by
      simp [pilThumbnailDims, hc]
    set f : ℚ := min ((tw : ℚ) / (w : ℚ)) ((th : ℚ) / (h : ℚ)) with hf
    have hfpos : 0 < f := lt_min (div_pos htw0 hw0) (div_pos hth0 hh0)
    have hflt : f < 1 := by
      rcases not_and_or.mp hc with h1 | h2
      · exact lt_of_le_of_lt (min_le_left _ _)
          ((div_lt_one hw0).mpr (by exact_mod_cast not_le.mp h1))
      · exact lt_of_le_of_lt (min_le_right _ _)
          ((div_lt_one hh0).mpr (by exact_mod_cast not_le.mp h2))
    have hwmul : f * (w : ℚ) ≤ (tw : ℚ) := by
      have := min_le_left ((tw : ℚ) / (w : ℚ)) ((th : ℚ) / (h : ℚ))
      calc f * (w : ℚ) ≤ ((tw : ℚ) / (w : ℚ)) * (w : ℚ) := by
            exact mul_le_mul_of_nonneg_right this (le_of_lt hw0)
        _ = (tw : ℚ) := div_mul_cancel₀ _ (ne_of_gt hw0)
    have hhmul : f * (h : ℚ) ≤ (th : ℚ) := by
      have := min_le_right ((tw : ℚ) / (w : ℚ)) ((th : ℚ) / (h : ℚ))
      calc f * (h : ℚ) ≤ ((th : ℚ) / (h : ℚ)) * (h : ℚ) := by
            exact mul_le_mul_of_nonneg_right this (le_of_lt hh0)
        _ = (th : ℚ) := div_mul_cancel₀ _ (ne_of_gt hh0)
    have hwself : f * (w : ℚ) ≤ (w : ℚ) := by
      calc f * (w : ℚ) ≤ 1 * (w : ℚ) :=
            mul_le_mul_of_nonneg_right (le_of_lt hflt) (le_of_lt hw0)
        _ = (w : ℚ) := one_mul _
    have hhself : f * (h : ℚ) ≤ (h : ℚ) := by
      calc f * (h : ℚ) ≤ 1 * (h : ℚ) :=
            mul_le_mul_of_nonneg_right (le_of_lt hflt) (le_of_lt hh0)
        _ = (h : ℚ) := one_mul _
    have hwfloor : ⌊f * (w : ℚ)⌋ ≤ (tw : ℤ) := by
      have := Int.floor_le_floor hwmul
      simpa [Int.floor_natCast] using this
    have hhfloor : ⌊f * (h : ℚ)⌋ ≤ (th : ℤ) := by
      have := Int.floor_le_floor hhmul
      simpa [Int.floor_natCast] using this
    have hwfloor' : ⌊f * (w : ℚ)⌋ ≤ (w : ℤ) := by
      have := Int.floor_le_floor hwself
      simpa [Int.floor_natCast] using this
    have hhfloor' : ⌊f * (h : ℚ)⌋ ≤ (h : ℤ) := by
      have := Int.floor_le_floor hhself
      simpa [Int.floor_natCast] using this
    have htw1 : (1 : ℤ) ≤ (tw : ℤ) := by exact_mod_cast htw
    have hth1 : (1 : ℤ) ≤ (th : ℤ) := by exact_mod_cast hth
    have hw1 : (1 : ℤ) ≤ (w : ℤ) := by exact_mod_cast hw
    have hh1 : (1 : ℤ) ≤ (h : ℤ) := by exact_mod_cast hh
    rw [hd]
    refine ⟨by omega, by omega, by omega, by omega, by omega, by omega,
      f, hfpos, le_of_lt hflt, rfl, rfl⟩

/-! ## Claim about `thumbnail_image` -/

/-- C6: for every decodable source image and every bounding box of at
least one pixel per side, the artifact produced by `thumbnail_image` is
JPEG-encoded and resized with nearest-neighbor resampling; neither
output dimension exceeds the bounding box or the source dimension (no
upscaling), and both output dimensions come from the source dimensions
by a single common scale factor — aspect ratio preserved up to the
rounding to whole pixels. -/
theorem thumbnail_image_contract (w h tw th : ℕ) (hw : 1 ≤ w) (hh : 1 ≤ h)
    (htw : 1 ≤ tw) (hth : 1 ≤ th) :
    (thumbnail_image (tw, th) (w, h)).format = "JPEG"
    ∧ (thumbnail_image (tw, th) (w, h)).resample = Resample.nearest
    ∧ (thumbnail_image (tw, th) (w, h)).width ≤ tw
    ∧ (thumbnail_image (tw, th) (w, h)).height ≤ th
    ∧ (thumbnail_image (tw, th) (w, h)).width ≤ w
    ∧ (thumbnail_image (tw, th) (w, h)).height ≤ h
    ∧ 1 ≤ (thumbnail_image (tw, th) (w, h)).width
    ∧ 1 ≤ (thumbnail_image (tw, th) (w, h)).height
    ∧ ∃ f : ℚ, 0 < f ∧ f ≤ 1 ∧
        (thumbnail_image (tw, th) (w, h)).width = (max 1 ⌊f * (w : ℚ)⌋).toNat ∧
        (thumbnail_image (tw, th) (w, h)).height = (max 1 ⌊f * (h : ℚ)⌋).toNat := by
  have hs := pilThumbnailDims_spec w h tw th hw hh htw hth
  exact ⟨rfl, rfl, hs.1, hs.2.1, hs.2.2.1, hs.2.2.2.1, hs.2.2.2.2.1,
    hs.2.2.2.2.2.1, hs.2.2.2.2.2.2⟩

theorem thumbnail_image_contract_witness :
    thumbnail_image (200, 200) (4000, 3000) =
      { format := "JPEG", width := 200, height := 150,
        resample := Resample.nearest } ∧
    (thumbnail_image (200, 200) (4000, 3000)).width ≤ 200 ∧
    (thumbnail_image (200, 200) (4000, 3000)).height ≤ 200 := by
  have h := thumbnail_image_contract 4000 3000 200 200
    (by norm_num) (by norm_num) (by norm_num) (by norm_num)
  refine ⟨?_, h.2.2.1, h.2.2.2.1⟩
  have hdims : pilThumbnailDims 4000 3000 200 200 = (200, 150) := by
    norm_num [pilThumbnailDims]
    exact ⟨rfl, rfl⟩
  simp [thumbnail_image, hdims]

end ImageGet
